import Mathlib

/-!
Verification of the metaedit repository: a Python wrapper (`metaedit/__init__.py`),
a click CLI (`metaedit/cli.py`) and tests, around a native core (`_metaedit`)
that edits PE binary metadata. The Python layer is embedded from the source;
the native core, absent from the sources, is modelled from the specification
(definitions marked `Modelled from the spec:`).

Conventions: Python dicts are lists of key/value pairs in insertion order;
exceptions are `Except Err`; `self`-returning methods return the updated
editor value, whose identity fields (`id`, `file_path`) are unchanged.
-/

namespace Metaedit

/-- Error taxonomy of the system (spec section 7). -/
inductive Err where
  | fileNotFound
  | invalidFormat
  | corruptResource
  | corruptVersionInfo
  | unsupportedImage
  | layoutOverflow
  | invariantViolation
  | invalidState
deriving DecidableEq, Repr

/-- True when the path string is absolute (starts with a slash). -/
def isAbsPath (p : String) : Bool :=
  p.data.head? = some '/'

/-- Embeds `str(Path(p).absolute())`: a relative path is resolved against the
current working directory, an absolute path is returned unchanged. -/
def absolutize (cwd : String) (p : String) : String :=
  if isAbsPath p then p else cwd ++ "/" ++ p

/-- Calls forwarded by the Python wrapper to the native editor. -/
inductive ECall where
  | setIcon (path : String)
  | setVersion (v : String)
  | setString (key value : String)
  | applyCall
deriving DecidableEq, Repr

/-- Observable I/O steps taken while opening a target file. -/
inductive IoEvent where
  | checkExists
  | readByte (b : Nat)
  | parseStep
deriving DecidableEq, Repr

/-- A file system: maps an (absolute) path string to the file's bytes, when
the file exists. -/
def FS : Type := String → Option (List Nat)

/-- Modelled from the spec: the native `_MetadataEditor` session state, which
is not part of the Python sources. It records the accumulated edit calls and
whether `apply` has already committed (spec: commit is single-shot, further
calls fail with `InvalidState`). -/
structure CoreEditor where
  path : String
  committed : Bool
  calls : List ECall
deriving DecidableEq, Repr

/-- Modelled from the spec: a minimal validity check of the opened bytes (the
leading `MZ` signature, spec section 4.1); full header parsing is out of
scope of the claims. -/
def validPE (bs : List Nat) : Bool :=
  match bs with
  | 77 :: 90 :: _ => true
  | _ => false

/-- Modelled from the spec: constructing the native editor checks that the
target path exists before any byte is read or parsed (`FileNotFound` is
raised first, spec section 7 and scenario 4); only then are the bytes read
and the headers parsed. Returns the I/O event trace together with the
result. -/
def CoreEditor.new (fs : FS) (p : String) : List IoEvent × Except Err CoreEditor :=
  match fs p with
  | none => ([IoEvent.checkExists], Except.error Err.fileNotFound)
  | some bs =>
      (IoEvent.checkExists :: (bs.map IoEvent.readByte ++ [IoEvent.parseStep]),
       if validPE bs then Except.ok ⟨p, false, []⟩ else Except.error Err.invalidFormat)

/-- Modelled from the spec: forwarding an edit call to the native editor
fails with `InvalidState` after a successful commit, and otherwise records
the call. -/
def CoreEditor.forward (c : CoreEditor) (call : ECall) : Except Err CoreEditor :=
  if c.committed then Except.error Err.invalidState
  else Except.ok { c with calls := c.calls ++ [call] }

/-- Modelled from the spec: committing fails with `InvalidState` when the
session has already committed; otherwise it records the apply and marks the
session committed. -/
def CoreEditor.applyCore (c : CoreEditor) : Except Err CoreEditor :=
  if c.committed then Except.error Err.invalidState
  else Except.ok { c with committed := true, calls := c.calls ++ [ECall.applyCall] }

/-- The Python `MetadataEditor` wrapper: `file_path` holds the absolutized
path string, `editor` the underlying native session, `id` the object
identity (unchanged by every method, which returns `self`). -/
structure MetadataEditor where
  id : Nat
  file_path : String
  editor : CoreEditor
deriving DecidableEq, Repr

namespace MetadataEditor

/-- Embeds `MetadataEditor.__init__`: stores `str(Path(file_path).absolute())`
in `file_path` and constructs the native editor on that absolute string.
Returns the I/O trace of the native constructor alongside the result. -/
def construct (fs : FS) (cwd : String) (id : Nat) (file_path : String) :
    List IoEvent × Except Err MetadataEditor :=
  let ap := absolutize cwd file_path
  let r := CoreEditor.new fs ap
  (r.1, r.2.map (fun c => ⟨id, ap, c⟩))

/-- Embeds `MetadataEditor.set_icon`: absolutizes the icon path and forwards
`set_icon` to the native editor, returning `self`. -/
def set_icon (cwd : String) (e : MetadataEditor) (icon_path : String) :
    Except Err MetadataEditor :=
  (e.editor.forward (ECall.setIcon (absolutize cwd icon_path))).map
    (fun c => { e with editor := c })

/-- Embeds `MetadataEditor.set_version`. -/
def set_version (e : MetadataEditor) (version : String) : Except Err MetadataEditor :=
  (e.editor.forward (ECall.setVersion version)).map (fun c => { e with editor := c })

/-- Embeds `MetadataEditor.set_string`. -/
def set_string (e : MetadataEditor) (key value : String) : Except Err MetadataEditor :=
  (e.editor.forward (ECall.setString key value)).map (fun c => { e with editor := c })

/-- Embeds `MetadataEditor.update`: iterates the dictionary in insertion
order, routing key `icon` to `set_icon`, key `version` to `set_version`,
and every other key to `set_string`, then returns `self`. -/
def update (cwd : String) (e : MetadataEditor) (metadata : List (String × String)) :
    Except Err MetadataEditor :=
  match metadata with
  | [] => Except.ok e
  | (key, value) :: rest => do
      let e' ←
        if key = "icon" then e.set_icon cwd value
        else if key = "version" then e.set_version value
        else e.set_string key value
      update cwd e' rest

/-- Embeds `MetadataEditor.apply`: forwards the commit to the native editor
and returns `self`. -/
def applyEditor (e : MetadataEditor) : Except Err MetadataEditor :=
  e.editor.applyCore.map (fun c => { e with editor := c })

end MetadataEditor

/-- Embeds the module-level `edit`: constructs the editor and, when the
metadata dictionary is truthy (non-empty), runs `editor.update(metadata)`. -/
def edit (fs : FS) (cwd : String) (id : Nat) (file_path : String)
    (metadata : List (String × String)) : List IoEvent × Except Err MetadataEditor :=
  let r := MetadataEditor.construct fs cwd id file_path
  (r.1,
   do
     let e ← r.2
     if metadata ≠ [] then e.update cwd metadata else Except.ok e)

/-- Embeds the module-level `update`: `edit(file_path, metadata).apply()`. -/
def update (fs : FS) (cwd : String) (id : Nat) (file_path : String)
    (metadata : List (String × String)) : List IoEvent × Except Err MetadataEditor :=
  let r := edit fs cwd id file_path metadata
  (r.1, r.2 >>= MetadataEditor.applyEditor)

/-- Written from the claim's words, for comparison with the source embedding
`Metaedit.update`: construct a `MetadataEditor` on the path, apply
`editor.update(metadata)` exactly when the mapping is non-empty (and no edit
call at all when it is empty), then call apply once. -/
def specSideUpdate (fs : FS) (cwd : String) (id : Nat) (file_path : String)
    (metadata : List (String × String)) : List IoEvent × Except Err MetadataEditor :=
  let r := MetadataEditor.construct fs cwd id file_path
  (r.1,
   do
     let e ← r.2
     let e' ← if metadata = [] then Except.ok e else e.update cwd metadata
     e'.applyEditor)

/-- The routing of one dictionary entry by `MetadataEditor.update`, as the
native call it produces. -/
def route (cwd : String) (kv : String × String) : ECall :=
  if kv.1 = "icon" then ECall.setIcon (absolutize cwd kv.2)
  else if kv.1 = "version" then ECall.setVersion kv.2
  else ECall.setString kv.1 kv.2

/-- CLI flag set of `metaedit/cli.py`: `exe_path` is the positional argument,
each option is `none` when omitted (click's default). -/
structure CliArgs where
  exe_path : String
  icon : Option String
  version : Option String
  company : Option String
  description : Option String
  product : Option String
  copyright : Option String
deriving DecidableEq, Repr

/-- Python truthiness of an optional string flag: `None` and the empty
string are falsy. -/
def truthy : Option String → Bool
  | none => false
  | some s => s ≠ ""

/-- Embeds `cli.main`: click first validates that `exe_path` exists
(`type=click.Path(exists=True)`); then a `MetadataEditor` is constructed and
each truthy flag produces its editor call — `--icon` to `set_icon`,
`--version` to `set_version`, `--company`, `--description`, `--product` and
`--copyright` to `set_string` with keys `CompanyName`, `FileDescription`,
`ProductName` and `LegalCopyright` — followed by one `apply`. -/
def cliMain (fs : FS) (cwd : String) (id : Nat) (args : CliArgs) :
    List IoEvent × Except Err MetadataEditor :=
  if fs (absolutize cwd args.exe_path) = none then
    ([], Except.error Err.fileNotFound)
  else
    let r := MetadataEditor.construct fs cwd id args.exe_path
    (r.1,
     r.2 >>= fun e =>
     (if truthy args.icon then e.set_icon cwd (args.icon.getD "") else Except.ok e) >>= fun e =>
     (if truthy args.version then e.set_version (args.version.getD "") else Except.ok e) >>=
       fun e =>
     (if truthy args.company then e.set_string "CompanyName" (args.company.getD "")
      else Except.ok e) >>= fun e =>
     (if truthy args.description then e.set_string "FileDescription" (args.description.getD "")
      else Except.ok e) >>= fun e =>
     (if truthy args.product then e.set_string "ProductName" (args.product.getD "")
      else Except.ok e) >>= fun e =>
     (if truthy args.copyright then e.set_string "LegalCopyright" (args.copyright.getD "")
      else Except.ok e) >>= fun e =>
     e.applyEditor)

/-- The list of native calls a truthy flag contributes (empty when the flag
is omitted or empty). -/
def flagCalls (f : Option String) (mkCall : String → ECall) : List ECall :=
  match f with
  | none => []
  | some s => if s = "" then [] else [mkCall s]

/-- Modelled from the spec: the parts of a PE image that `strip` touches —
the file bytes and the certificate-table data-directory entry
(`certAddr`, `certSize`), interpreted as a direct file offset/length pair
(spec section 4.1). -/
structure PEImage where
  fileData : List Nat
  certAddr : Nat
  certSize : Nat
deriving DecidableEq, Repr

/-- Modelled from the spec (section 4.5, `SignatureStripper.strip`): when
the certificate-table entry is already zero-length the call is a no-op;
otherwise both fields of the entry are zeroed and, when the certificate data
occupies the tail of the file, the buffer is truncated to the entry's start
offset; certificate data not at the file's end fails with
`InvariantViolation`. -/
def strip (img : PEImage) : Except Err PEImage :=
  if img.certSize = 0 then Except.ok img
  else if img.certAddr + img.certSize = img.fileData.length then
    Except.ok ⟨img.fileData.take img.certAddr, 0, 0⟩
  else Except.error Err.invariantViolation

/-- Modelled from the spec: a decoded source raster image — dimensions, a
channel count (3 = RGB, 4 = RGBA) and a flat component accessor
`pix x y c`. -/
structure SrcImage where
  width : Nat
  height : Nat
  channels : Nat
  pix : Nat → Nat → Nat → Nat

/-- Modelled from the spec: normalize a valid image to RGBA, treating absent
alpha as fully opaque (255). -/
def SrcImage.rgba (img : SrcImage) : Nat → Nat → Nat → Nat :=
  fun x y c => if c = 3 ∧ img.channels ≠ 4 then 255 else img.pix x y c

/-- Modelled from the spec: one icon at a fixed square size; the largest
size is kept as a compressed embedded image, smaller sizes as uncompressed
bitmaps. -/
structure IconImage where
  size : Nat
  bpp : Nat
  compressed : Bool
  payload : Nat → Nat → Nat → Nat

/-- Modelled from the spec: ordered sequence of icon images, descending by
size. -/
structure IconSet where
  images : List IconImage

/-- The conventional icon size ladder, descending (spec section 4.4). -/
def iconSizes : List Nat := [256, 128, 64, 48, 32, 16]

/-- Modelled from the spec: downscale the normalized source to an `s`-by-`s`
pixel grid by point sampling of the box grid. -/
def resizeTo (img : SrcImage) (s : Nat) : Nat → Nat → Nat → Nat :=
  fun x y c => img.rgba (x * img.width / s) (y * img.height / s) c

/-- Modelled from the spec (section 4.4, `IconCodec.from_image`): fails with
`UnsupportedImage` when width or height is zero or the channel layout is
neither RGB nor RGBA; otherwise produces the size ladder by downscaling,
the 256-pixel entry as a compressed embedded image and the rest as
uncompressed 32-bit bitmaps. -/
def from_image (img : SrcImage) : Except Err IconSet :=
  if img.width = 0 ∨ img.height = 0 then Except.error Err.unsupportedImage
  else if img.channels = 3 ∨ img.channels = 4 then
    Except.ok ⟨iconSizes.map (fun s => ⟨s, 32, s = 256, resizeTo img s⟩)⟩
  else Except.error Err.unsupportedImage

/-- One localized string table: a (language id, code page) pair together
with its key/value entries, insertion order preserved. Strings are lists of
16-bit UTF-16 code units. -/
abbrev StrTable : Type := (Nat × Nat) × List (List Nat × List Nat)

/-- Modelled from the spec (section 3): the version-info record — file and
product version quads (four 16-bit components each) and the localized
string tables; the translation list is derived from the tables. -/
structure VersionInfoRecord where
  fileVersion : Nat × Nat × Nat × Nat
  productVersion : Nat × Nat × Nat × Nat
  tables : List StrTable
deriving DecidableEq, Repr

/-- A printable UTF-16 code unit (the claim's "printable string values");
in particular it is never the null terminator. -/
def PrintableUnit (u : Nat) : Prop := 32 ≤ u ∧ u ≤ 126

instance : DecidablePred PrintableUnit :=
  fun u => inferInstanceAs (Decidable (32 ≤ u ∧ u ≤ 126))

/-- Every code unit of the string is printable. -/
def PrintableStr (s : List Nat) : Prop := ∀ u ∈ s, PrintableUnit u

instance : DecidablePred PrintableStr :=
  fun s => inferInstanceAs (Decidable (∀ u ∈ s, PrintableUnit u))

/-- Every key and value of every string table of the record is printable. -/
def PrintableRecord (r : VersionInfoRecord) : Prop :=
  ∀ t ∈ r.tables, ∀ e ∈ t.2, PrintableStr e.1 ∧ PrintableStr e.2

instance : DecidablePred PrintableRecord :=
  fun r => inferInstanceAs
    (Decidable (∀ t ∈ r.tables, ∀ e ∈ t.2, PrintableStr e.1 ∧ PrintableStr e.2))

/-- Pad a block of 16-bit words with a zero word to a 4-byte (2-word)
boundary. -/
def padTo2 (l : List Nat) : List Nat :=
  if l.length % 2 = 0 then l else l ++ [0]

/-- Modelled from the spec (section 4.3): a string is encoded as its
null-terminated UTF-16 code units, padded to 4-byte alignment. -/
def encStrPadded (s : List Nat) : List Nat := padTo2 (s ++ [0])

/-- Modelled from the spec (section 4.3): one key/value entry — a length
word (the word count of the body, whose overrun decoding checks) followed
by the paired null-terminated, 4-byte-aligned key and value and the entry's
own alignment padding. -/
def encEntry (e : List Nat × List Nat) : List Nat :=
  let body := encStrPadded e.1 ++ encStrPadded e.2
  [body.length] ++ body ++ [0]

/-- Modelled from the spec (section 4.3): one string table — its language
id, code page and entry count, followed by its entries. -/
def encTable (t : StrTable) : List Nat :=
  [t.1.1, t.1.2, t.2.length] ++ (t.2.map encEntry).flatten

/-- Modelled from the spec (section 4.3): the translation block enumerating
every (language, code page) pair present. -/
def encTrans (tables : List StrTable) : List Nat :=
  [tables.length] ++ (tables.map (fun t => [t.1.1, t.1.2])).flatten

/-- Modelled from the spec (section 4.3, `VersionInfoCodec.encode`): the
fixed version quads, the table count, every string table, and the derived
translation block. -/
def encode (r : VersionInfoRecord) : List Nat :=
  r.fileVersion.1 :: r.fileVersion.2.1 :: r.fileVersion.2.2.1 :: r.fileVersion.2.2.2 ::
  r.productVersion.1 :: r.productVersion.2.1 :: r.productVersion.2.2.1 ::
  r.productVersion.2.2.2 ::
  r.tables.length :: ((r.tables.map encTable).flatten ++ encTrans r.tables)

/-- Take code units up to the null terminator; `none` when no terminator is
found before the buffer ends (malformed data). -/
def takeUntil0 : List Nat → Option (List Nat × List Nat)
  | [] => none
  | u :: rest =>
    if u = 0 then some ([], rest)
    else
      match takeUntil0 rest with
      | none => none
      | some (s, r) => some (u :: s, r)

/-- Consume one zero pad word when alignment requires it. -/
def skipPad (needPad : Bool) (ws : List Nat) : Option (List Nat) :=
  if needPad then
    match ws with
    | 0 :: t => some t
    | _ => none
  else some ws

/-- Decode one null-terminated, 4-byte-aligned string. -/
def decStrPadded (ws : List Nat) : Option (List Nat × List Nat) :=
  match takeUntil0 ws with
  | none => none
  | some (s, r) => (skipPad ((s.length + 1) % 2 == 1) r).map (fun r' => (s, r'))

/-- Decode one key/value entry: the length word is checked against the
remaining buffer (an overrunning length field is malformed), then the
aligned key and value and the entry padding are consumed. -/
def decEntry (ws : List Nat) : Option ((List Nat × List Nat) × List Nat) :=
  match ws with
  | [] => none
  | n :: rest =>
    if n ≤ rest.length then
      match decStrPadded rest with
      | none => none
      | some (k, r1) =>
        match decStrPadded r1 with
        | none => none
        | some (v, r2) => (skipPad ((n + 1) % 2 == 1) r2).map (fun r3 => ((k, v), r3))
    else none

/-- Decode a counted sequence of entries. -/
def decEntries : Nat → List Nat → Option (List (List Nat × List Nat) × List Nat)
  | 0, ws => some ([], ws)
  | m + 1, ws =>
    match decEntry ws with
    | none => none
    | some (e, r) =>
      match decEntries m r with
      | none => none
      | some (es, r') => some (e :: es, r')

/-- Decode one string table. -/
def decTable (ws : List Nat) : Option (StrTable × List Nat) :=
  match ws with
  | lang :: cp :: m :: rest =>
    match decEntries m rest with
    | none => none
    | some (es, r) => some (((lang, cp), es), r)
  | _ => none

/-- Decode a counted sequence of string tables. -/
def decTables : Nat → List Nat → Option (List StrTable × List Nat)
  | 0, ws => some ([], ws)
  | m + 1, ws =>
    match decTable ws with
    | none => none
    | some (t, r) =>
      match decTables m r with
      | none => none
      | some (ts, r') => some (t :: ts, r')

/-- Modelled from the spec (section 4.3, `VersionInfoCodec.decode`): the
inverse of `encode`; structurally malformed input (short fixed block,
overrunning length fields, a translation block inconsistent with the
decoded tables) yields `none`, the model of `CorruptVersionInfo`. -/
def decode (ws : List Nat) : Option VersionInfoRecord :=
  match ws with
  | f1 :: f2 :: f3 :: f4 :: p1 :: p2 :: p3 :: p4 :: tc :: rest =>
    match decTables tc rest with
    | none => none
    | some (ts, r) =>
      if r = encTrans ts then some ⟨(f1, f2, f3, f4), (p1, p2, p3, p4), ts⟩ else none
  | _ => none

/-- A mutation of the version-info record: the edits the editor supports. -/
inductive REdit where
  | setVersionEdit (q : Nat × Nat × Nat × Nat)
  | setStringEdit (key value : List Nat)
deriving DecidableEq, Repr

/-- Insert or replace the entry for `key`, preserving insertion order. -/
def setEntry (k v : List Nat) : List (List Nat × List Nat) → List (List Nat × List Nat)
  | [] => [(k, v)]
  | (k', v') :: rest => if k' = k then (k, v) :: rest else (k', v') :: setEntry k v rest

/-- Apply an edit to the decoded record: a version edit sets both the file
and product version quads, a string edit inserts/replaces the key in every
localized table. -/
def applyREdit : REdit → VersionInfoRecord → VersionInfoRecord
  | REdit.setVersionEdit q, r => { r with fileVersion := q, productVersion := q }
  | REdit.setStringEdit k v, r =>
      { r with tables := r.tables.map (fun t => (t.1, setEntry k v t.2)) }

/-- One run of the resource pipeline for a string/version edit: decode the
resource bytes, mutate the record, re-encode. A function only of the edit
and the input bytes. -/
def runEdit (e : REdit) (ws : List Nat) : Option (List Nat) :=
  (decode ws).map (fun r => encode (applyREdit e r))

/-- A file system with no files at all. -/
def fsNone : FS := fun _ => none

/-- A file system holding one valid target at `/d/app.exe`. -/
def fsEx : FS := fun p => if p = "/d/app.exe" then some [77, 90] else none

/-- A fresh, uncommitted editor session on `/d/app.exe`. -/
def eEx : MetadataEditor := ⟨0, "/d/app.exe", ⟨"/d/app.exe", false, []⟩⟩

/-- A sample metadata dictionary exercising all three routings. -/
def mdEx : List (String × String) :=
  [("icon", "art.ico"), ("version", "1.2.3.4"), ("CompanyName", "Acme")]

/-- CLI arguments where the `--company` flag is supplied with an empty
value and every other option is omitted. -/
def argsEx : CliArgs := ⟨"/d/app.exe", none, none, some "", none, none, none⟩

/-- CLI arguments mixing truthy, empty and omitted flags. -/
def argsW : CliArgs :=
  ⟨"/d/app.exe", some "/i.ico", some "1.2.3.4", some "", none, some "Prod", none⟩

/-- An image whose certificate blob occupies the tail of the file. -/
def imgTail : PEImage := ⟨[1, 2, 3, 4, 5, 6, 7, 8], 5, 3⟩

/-- An image with a zero-length certificate entry at a nonzero address. -/
def imgZeroLen : PEImage := ⟨[1, 2, 3, 4, 5, 6, 7, 8], 5, 0⟩

/-- An image whose certificate blob sits strictly inside the file. -/
def imgInterior : PEImage := ⟨[1, 2, 3, 4, 5, 6, 7, 8], 2, 3⟩

/-- A 256-by-256 RGBA source image. -/
def imgSrcEx : SrcImage := ⟨256, 256, 4, fun _ _ _ => 7⟩

/-- A sample printable version-info record with one translation pair. -/
def recEx : VersionInfoRecord :=
  ⟨(1, 2, 3, 4), (1, 2, 3, 4), [((1033, 1200), [([67, 111], [65, 99, 109, 101])])]⟩

/-- The editor state produced by the one-shot `update` run of the C9
witness: all three routed calls followed by the commit. -/
def resEd : MetadataEditor :=
  ⟨0, "/d/app.exe",
   ⟨"/d/app.exe", true,
    [ECall.setIcon "/d/art.ico", ECall.setVersion "1.2.3.4",
     ECall.setString "CompanyName" "Acme", ECall.applyCall]⟩⟩

/-- The committed session obtained by applying the fresh session `eEx`. -/
def aEd : MetadataEditor :=
  ⟨0, "/d/app.exe", ⟨"/d/app.exe", true, [ECall.applyCall]⟩⟩

/-! ## Theorems -/

theorem exbind_ok {α β : Type} (a : α) (k : α → Except Err β) :
    ((Except.ok a : Except Err α) >>= k) = k a := rfl

theorem exbind_error {α β : Type} (e : Err) (k : α → Except Err β) :
    ((Except.error e : Except Err α) >>= k) = Except.error e := rfl

theorem exmap_ok {α β : Type} (f : α → β) (a : α) :
    (Except.ok a : Except Err α).map f = Except.ok (f a) := rfl

theorem exmap_error {α β : Type} (f : α → β) (e : Err) :
    (Except.error e : Except Err α).map f = Except.error e := rfl

/-- On an uncommitted session, `set_icon` appends exactly one `setIcon`
call carrying the absolutized icon path. -/
theorem set_icon_ok (cwd : String) (e : MetadataEditor) (p : String)
    (h : e.editor.committed = false) :
    e.set_icon cwd p =
      Except.ok { e with editor :=
        { e.editor with calls := e.editor.calls ++ [ECall.setIcon (absolutize cwd p)] } } := by
  simp [MetadataEditor.set_icon, CoreEditor.forward, h, Except.map]

/-- On an uncommitted session, `set_version` appends exactly one
`setVersion` call. -/
theorem set_version_ok (e : MetadataEditor) (v : String)
    (h : e.editor.committed = false) :
    e.set_version v =
      Except.ok { e with editor :=
        { e.editor with calls := e.editor.calls ++ [ECall.setVersion v] } } := by
  simp [MetadataEditor.set_version, CoreEditor.forward, h, Except.map]

/-- On an uncommitted session, `set_string` appends exactly one `setString`
call. -/
theorem set_string_ok (e : MetadataEditor) (k v : String)
    (h : e.editor.committed = false) :
    e.set_string k v =
      Except.ok { e with editor :=
        { e.editor with calls := e.editor.calls ++ [ECall.setString k v] } } := by
  simp [MetadataEditor.set_string, CoreEditor.forward, h, Except.map]

/-- On an uncommitted session, `apply` appends exactly one `applyCall` and
marks the session committed. -/
theorem applyEditor_ok (e : MetadataEditor) (h : e.editor.committed = false) :
    e.applyEditor =
      Except.ok { e with editor :=
        { e.editor with committed := true,
                        calls := e.editor.calls ++ [ECall.applyCall] } } := by
  simp [MetadataEditor.applyEditor, CoreEditor.applyCore, h, Except.map]

/-- C1. For every metadata dictionary, the batch update operation
(`MetadataEditor.update`) applies each (key, value) entry in the
dictionary's iteration order, routing the key `icon` to `set_icon(value)`,
the key `version` to `set_version(value)`, and every other key to
`set_string(key, value)`, and returns the same editor instance (same `id`
and `file_path`, with exactly the routed calls appended). -/
theorem c1_update_routes (cwd : String) (e : MetadataEditor)
    (md : List (String × String)) (h : e.editor.committed = false) :
    MetadataEditor.update cwd e md =
      Except.ok { e with editor :=
        { e.editor with calls := e.editor.calls ++ md.map (route cwd) } } := by
  revert e
  induction md with
  | nil =>
      intro e h
      simp [MetadataEditor.update]
  | cons kv rest ih =>
      intro e h
      obtain ⟨k, v⟩ := kv
      simp only [MetadataEditor.update]
      by_cases hk : k = "icon"
      · rw [if_pos hk, set_icon_ok cwd e v h, exbind_ok, ih _ (by simpa using h)]
        simp [route, hk, List.append_assoc]
      · rw [if_neg hk]
        by_cases hv : k = "version"
        · rw [if_pos hv, set_version_ok e v h, exbind_ok, ih _ (by simpa using h)]
          simp [route, hk, hv, List.append_assoc]
        · rw [if_neg hv, set_string_ok e k v h, exbind_ok, ih _ (by simpa using h)]
          simp [route, hk, hv, List.append_assoc]

/-- A wrapper step (a native result re-wrapped into `self`) never changes
the editor's identity fields. -/
theorem wrapPreserves {e a : MetadataEditor} {r : Except Err CoreEditor}
    (h : r.map (fun c => { e with editor := c }) = Except.ok a) :
    a.id = e.id ∧ a.file_path = e.file_path := by
  cases r with
  | error err => simp [Except.map] at h
  | ok c =>
      simp [Except.map] at h
      exact ⟨by rw [← h], by rw [← h]⟩

/-- `set_icon` preserves the editor's identity fields. -/
theorem set_icon_preserves {cwd : String} {e a : MetadataEditor} {p : String}
    (h : e.set_icon cwd p = Except.ok a) : a.id = e.id ∧ a.file_path = e.file_path :=
  wrapPreserves h

/-- `set_version` preserves the editor's identity fields. -/
theorem set_version_preserves {e a : MetadataEditor} {v : String}
    (h : e.set_version v = Except.ok a) : a.id = e.id ∧ a.file_path = e.file_path :=
  wrapPreserves h

/-- `set_string` preserves the editor's identity fields. -/
theorem set_string_preserves {e a : MetadataEditor} {k v : String}
    (h : e.set_string k v = Except.ok a) : a.id = e.id ∧ a.file_path = e.file_path :=
  wrapPreserves h

/-- `apply` preserves the editor's identity fields. -/
theorem applyEditor_preserves {e a : MetadataEditor}
    (h : e.applyEditor = Except.ok a) : a.id = e.id ∧ a.file_path = e.file_path :=
  wrapPreserves h

/-- `update` preserves the editor's identity fields. -/
theorem update_preserves (cwd : String) (md : List (String × String)) :
    ∀ e e', MetadataEditor.update cwd e md = Except.ok e' →
      e'.id = e.id ∧ e'.file_path = e.file_path := by
  induction md with
  | nil =>
      intro e e' h
      simp [MetadataEditor.update] at h
      exact ⟨by rw [← h], by rw [← h]⟩
  | cons kv rest ih =>
      intro e e' h
      obtain ⟨k, v⟩ := kv
      simp only [MetadataEditor.update] at h
      by_cases hk : k = "icon"
      · rw [if_pos hk] at h
        cases hstep : MetadataEditor.set_icon cwd e v with
        | error err => rw [hstep, exbind_error] at h; cases h
        | ok a =>
            rw [hstep, exbind_ok] at h
            obtain ⟨h1, h2⟩ := ih a e' h
            obtain ⟨g1, g2⟩ := set_icon_preserves hstep
            exact ⟨h1.trans g1, h2.trans g2⟩
      · rw [if_neg hk] at h
        by_cases hv : k = "version"
        · rw [if_pos hv] at h
          cases hstep : MetadataEditor.set_version e v with
          | error err => rw [hstep, exbind_error] at h; cases h
          | ok a =>
              rw [hstep, exbind_ok] at h
              obtain ⟨h1, h2⟩ := ih a e' h
              obtain ⟨g1, g2⟩ := set_version_preserves hstep
              exact ⟨h1.trans g1, h2.trans g2⟩
        · rw [if_neg hv] at h
          cases hstep : MetadataEditor.set_string e k v with
          | error err => rw [hstep, exbind_error] at h; cases h
          | ok a =>
              rw [hstep, exbind_ok] at h
              obtain ⟨h1, h2⟩ := ih a e' h
              obtain ⟨g1, g2⟩ := set_string_preserves hstep
              exact ⟨h1.trans g1, h2.trans g2⟩

/-- A successfully constructed editor carries the requested identity and
the absolutized target path. -/
theorem construct_shape {fs : FS} {cwd : String} {id : Nat} {p : String}
    {e0 : MetadataEditor}
    (h : (MetadataEditor.construct fs cwd id p).2 = Except.ok e0) :
    e0.id = id ∧ e0.file_path = absolutize cwd p := by
  unfold MetadataEditor.construct at h
  dsimp only at h
  cases hr : (CoreEditor.new fs (absolutize cwd p)).2 with
  | error err => rw [hr] at h; cases h
  | ok c =>
      rw [hr] at h
      simp [Except.map] at h
      exact ⟨by rw [← h], by rw [← h]⟩

/-- C9. The module-level one-shot `update(file_path, **metadata)` is
equivalent to constructing a `MetadataEditor` on the path, applying
`editor.update(metadata)` exactly when the mapping is non-empty (and no
edit call at all when it is empty), then calling apply once
(`specSideUpdate`); both produce the same editor instance — the one the
constructor created, with its `id` and absolutized `file_path`. -/
theorem c9_update_equiv (fs : FS) (cwd : String) (id : Nat) (p : String)
    (md : List (String × String)) :
    update fs cwd id p md = specSideUpdate fs cwd id p md ∧
    ∀ e', (update fs cwd id p md).2 = Except.ok e' →
      e'.id = id ∧ e'.file_path = absolutize cwd p := by
  constructor
  · unfold update edit specSideUpdate
    dsimp only
    cases h : (MetadataEditor.construct fs cwd id p).2 with
    | error err => by_cases hmd : md = [] <;> simp [hmd, exbind_error]
    | ok e => by_cases hmd : md = [] <;> simp [hmd, exbind_ok, exbind_error]
  · intro e' h
    unfold update edit at h
    dsimp only at h
    cases hc : (MetadataEditor.construct fs cwd id p).2 with
    | error err => rw [hc, exbind_error, exbind_error] at h; cases h
    | ok e0 =>
        rw [hc, exbind_ok] at h
        obtain ⟨h0id, h0fp⟩ := construct_shape hc
        by_cases hmd : md = []
        · rw [if_neg (by simp [hmd]), exbind_ok] at h
          obtain ⟨g1, g2⟩ := applyEditor_preserves h
          exact ⟨g1.trans h0id, g2.trans h0fp⟩
        · rw [if_pos (by simp [hmd])] at h
          cases hu : MetadataEditor.update cwd e0 md with
          | error err => rw [hu, exbind_error] at h; cases h
          | ok e1 =>
              rw [hu, exbind_ok] at h
              obtain ⟨u1, u2⟩ := update_preserves cwd md e0 e1 hu
              obtain ⟨g1, g2⟩ := applyEditor_preserves h
              exact ⟨(g1.trans u1).trans h0id, (g2.trans u2).trans h0fp⟩

/-- Witness for C9: the one-shot update on a concrete file system,
dictionary and path; the result is the committed editor `resEd` with the
constructor's identity and absolute path. -/
theorem c9_witness :
    update fsEx "/d" 0 "app.exe" mdEx = specSideUpdate fsEx "/d" 0 "app.exe" mdEx ∧
    resEd.id = 0 ∧ resEd.file_path = absolutize "/d" "app.exe" := by
  obtain ⟨h1, h2⟩ := c9_update_equiv fsEx "/d" 0 "app.exe" mdEx
  exact ⟨h1, h2 resEd (by rfl)⟩

/-- A string that starts with a slash keeps starting with a slash after any
append. -/
theorem isAbsPath_append (s t : String) (h : isAbsPath s = true) :
    isAbsPath (s ++ t) = true := by
  unfold isAbsPath at *
  cases s with
  | mk data =>
      cases t with
      | mk data2 =>
          simp only [HAppend.hAppend, Append.append, String.append] at *
          cases data with
          | nil => simp at h
          | cons c cs => simp_all

/-- With an absolute working directory, `absolutize` always yields an
absolute path string. -/
theorem isAbsPath_absolutize (cwd p : String) (hcwd : isAbsPath cwd = true) :
    isAbsPath (absolutize cwd p) = true := by
  unfold absolutize
  by_cases hp : isAbsPath p = true
  · rw [if_pos hp]; exact hp
  · rw [if_neg hp]
    exact isAbsPath_append (cwd ++ "/") p (isAbsPath_append cwd "/" hcwd)

/-- A successfully opened native session stores exactly the path it was
given. -/
theorem coreNew_path {fs : FS} {p : String} {c : CoreEditor}
    (h : (CoreEditor.new fs p).2 = Except.ok c) : c.path = p := by
  unfold CoreEditor.new at h
  cases hfs : fs p with
  | none => rw [hfs] at h; cases h
  | some bs =>
      rw [hfs] at h
      dsimp only at h
      by_cases hv : validPE bs = true
      · rw [if_pos hv] at h
        cases h
        rfl
      · rw [if_neg hv] at h; cases h

/-- C10. The constructor and `set_icon` resolve their input path to its
absolute string form before passing it to the native editor: the editor's
`file_path` attribute holds the absolutized string (which is absolute and
is exactly what the native editor received), `set_icon` forwards the
absolutized icon path, and, with a fixed working directory, constructing on
a relative path is identical to constructing on the corresponding absolute
path. -/
theorem c10_path_resolution (fs : FS) (cwd : String) (id : Nat) (p q : String)
    (e : MetadataEditor) (hcwd : isAbsPath cwd = true) :
    (∀ e0, (MetadataEditor.construct fs cwd id p).2 = Except.ok e0 →
        e0.file_path = absolutize cwd p ∧ isAbsPath e0.file_path = true ∧
        e0.editor.path = e0.file_path) ∧
    (e.editor.committed = false →
        e.set_icon cwd q =
          Except.ok { e with editor := { e.editor with
            calls := e.editor.calls ++ [ECall.setIcon (absolutize cwd q)] } }) ∧
    (isAbsPath p = false →
        MetadataEditor.construct fs cwd id p =
          MetadataEditor.construct fs cwd id (cwd ++ "/" ++ p)) := by
  refine ⟨?_, fun h => set_icon_ok cwd e q h, ?_⟩
  · intro e0 h
    unfold MetadataEditor.construct at h
    dsimp only at h
    cases hr : (CoreEditor.new fs (absolutize cwd p)).2 with
    | error err => rw [hr] at h; cases h
    | ok c =>
        rw [hr] at h
        simp [Except.map] at h
        have hpath := coreNew_path hr
        refine ⟨by rw [← h], ?_, ?_⟩
        · rw [← h]
          exact isAbsPath_absolutize cwd p hcwd
        · rw [← h]
          simpa using hpath
  · intro hp
    unfold MetadataEditor.construct
    have h1 : absolutize cwd p = cwd ++ "/" ++ p := by
      unfold absolutize
      rw [if_neg (by simp [hp])]
    have h2 : absolutize cwd (cwd ++ "/" ++ p) = cwd ++ "/" ++ p := by
      unfold absolutize
      rw [if_pos (isAbsPath_append (cwd ++ "/") p (isAbsPath_append cwd "/" hcwd))]
    rw [h1, h2]

/-- Witness for C10: concrete relative target and icon paths under the
absolute working directory `/d`. -/
theorem c10_witness :
    isAbsPath "/d" = true ∧
    eEx.file_path = absolutize "/d" "app.exe" ∧ isAbsPath eEx.file_path = true ∧
    MetadataEditor.construct fsEx "/d" 0 "app.exe" =
      MetadataEditor.construct fsEx "/d" 0 ("/d" ++ "/" ++ "app.exe") := by
  obtain ⟨h1, _h2, h3⟩ := c10_path_resolution fsEx "/d" 0 "app.exe" "i.ico" eEx (by decide)
  refine ⟨by decide, ?_, ?_, h3 (by decide)⟩
  · exact (h1 eEx (by rfl)).1
  · exact (h1 eEx (by rfl)).2.1

/-- C2. Invoking the one-shot `update` on a path that does not name an
existing file fails with `FileNotFound`, and the failure occurs before any
byte of the target is read or parsed: the I/O trace holds nothing but the
existence check. -/
theorem c2_file_not_found (fs : FS) (cwd : String) (id : Nat) (p : String)
    (md : List (String × String)) (h : fs (absolutize cwd p) = none) :
    (update fs cwd id p md).2 = Except.error Err.fileNotFound ∧
    ∀ ev ∈ (update fs cwd id p md).1, ev = IoEvent.checkExists := by
  unfold update edit MetadataEditor.construct CoreEditor.new
  simp [h, exbind_error, Except.map]

/-- Witness for C2: a file system with no files at all. -/
theorem c2_witness :
    fsNone (absolutize "/d" "missing.exe") = none ∧
    (update fsNone "/d" 0 "missing.exe" [("version", "1.0")]).2 =
      Except.error Err.fileNotFound ∧
    ∀ ev ∈ (update fsNone "/d" 0 "missing.exe" [("version", "1.0")]).1,
      ev = IoEvent.checkExists := by
  obtain ⟨h1, h2⟩ := c2_file_not_found fsNone "/d" 0 "missing.exe" [("version", "1.0")] rfl
  exact ⟨rfl, h1, h2⟩

/-- C6. Commit is single-shot: after a successful `apply`, a second `apply`
and every further edit call (`set_icon`, `set_version`, `set_string`) on
the returned session fail with `InvalidState`. -/
theorem c6_single_shot (cwd : String) (e e' : MetadataEditor)
    (h : e.applyEditor = Except.ok e') :
    e'.applyEditor = Except.error Err.invalidState ∧
    (∀ q, e'.set_icon cwd q = Except.error Err.invalidState) ∧
    (∀ v, e'.set_version v = Except.error Err.invalidState) ∧
    (∀ k v, e'.set_string k v = Except.error Err.invalidState) := by
  have hcom : e'.editor.committed = true := by
    unfold MetadataEditor.applyEditor CoreEditor.applyCore at h
    by_cases hc : e.editor.committed = true
    · simp [hc, Except.map] at h
    · simp [hc, Except.map] at h
      rw [← h]
  refine ⟨?_, ?_, ?_, ?_⟩ <;>
    simp [MetadataEditor.applyEditor, MetadataEditor.set_icon, MetadataEditor.set_version,
      MetadataEditor.set_string, CoreEditor.applyCore, CoreEditor.forward, hcom, Except.map]

/-- Witness for C6: committing the fresh session `eEx` yields `aEd`, on
which every further call fails with `InvalidState`. -/
theorem c6_witness :
    aEd.applyEditor = Except.error Err.invalidState ∧
    aEd.set_icon "/d" "x.ico" = Except.error Err.invalidState ∧
    aEd.set_version "2.0" = Except.error Err.invalidState ∧
    aEd.set_string "CompanyName" "Acme" = Except.error Err.invalidState := by
  obtain ⟨h1, h2, h3, h4⟩ := c6_single_shot "/d" eEx aEd (by rfl)
  exact ⟨h1, h2 "x.ico", h3 "2.0", h4 "CompanyName" "Acme"⟩

/-- Witness for C1: a concrete three-entry dictionary on a fresh session. -/
theorem c1_witness :
    eEx.editor.committed = false ∧
    MetadataEditor.update "/d" eEx mdEx =
      Except.ok ⟨0, "/d/app.exe",
        ⟨"/d/app.exe", false,
         [ECall.setIcon "/d/art.ico", ECall.setVersion "1.2.3.4",
          ECall.setString "CompanyName" "Acme"]⟩⟩ := by
  refine ⟨rfl, ?_⟩
  rw [c1_update_routes "/d" eEx mdEx rfl]
  rfl

/-- Constructing on an existing, valid target succeeds with a fresh
session on the absolutized path. -/
theorem construct_ok (fs : FS) (cwd : String) (id : Nat) (p : String)
    (bs : List Nat) (hbs : fs (absolutize cwd p) = some bs) (hval : validPE bs = true) :
    (MetadataEditor.construct fs cwd id p).2 =
      Except.ok ⟨id, absolutize cwd p, ⟨absolutize cwd p, false, []⟩⟩ := by
  unfold MetadataEditor.construct CoreEditor.new
  simp [hbs, hval, Except.map]

/-- One CLI `--icon` flag check: a truthy flag appends exactly one
`setIcon` call with the absolutized path, a falsy one appends nothing. -/
theorem flagStepIcon (cwd : String) (e : MetadataEditor) (f : Option String)
    (h : e.editor.committed = false) :
    (if truthy f then e.set_icon cwd (f.getD "") else Except.ok e) =
      Except.ok { e with editor := { e.editor with
        calls := e.editor.calls ++ flagCalls f (fun s => ECall.setIcon (absolutize cwd s)) } } := by
  cases f with
  | none => simp [truthy, flagCalls]
  | some s =>
      by_cases hs : s = ""
      · simp [truthy, flagCalls, hs]
      · simp [truthy, flagCalls, hs, MetadataEditor.set_icon, CoreEditor.forward, h,
          Except.map]

/-- One CLI `--version` flag check. -/
theorem flagStepVersion (e : MetadataEditor) (f : Option String)
    (h : e.editor.committed = false) :
    (if truthy f then e.set_version (f.getD "") else Except.ok e) =
      Except.ok { e with editor := { e.editor with
        calls := e.editor.calls ++ flagCalls f ECall.setVersion } } := by
  cases f with
  | none => simp [truthy, flagCalls]
  | some s =>
      by_cases hs : s = ""
      · simp [truthy, flagCalls, hs]
      · simp [truthy, flagCalls, hs, MetadataEditor.set_version, CoreEditor.forward, h,
          Except.map]

/-- One CLI string-flag check (`--company`, `--description`, `--product`,
`--copyright`). -/
theorem flagStepString (e : MetadataEditor) (f : Option String) (key : String)
    (h : e.editor.committed = false) :
    (if truthy f then e.set_string key (f.getD "") else Except.ok e) =
      Except.ok { e with editor := { e.editor with
        calls := e.editor.calls ++ flagCalls f (ECall.setString key) } } := by
  cases f with
  | none => simp [truthy, flagCalls]
  | some s =>
      by_cases hs : s = ""
      · simp [truthy, flagCalls, hs]
      · simp [truthy, flagCalls, hs, MetadataEditor.set_string, CoreEditor.forward, h,
          Except.map]

/-- Counterexample to C3 as stated: the `--company` flag is supplied (with
an empty value) yet the CLI run issues no `set_string` call at all — the
resulting call trace holds only the final apply, because `cli.main` tests
each flag for Python truthiness, not for presence. -/
theorem c3_counterexample :
    argsEx.company = some "" ∧
    ((cliMain fsEx "/d" 0 argsEx).2).map (fun e => e.editor.calls) =
      Except.ok [ECall.applyCall] :=
  ⟨rfl, rfl⟩

/-- C3 (amended): every supplied non-empty flag maps 1:1 onto exactly one
editor call — `--icon` to `set_icon` (with the absolutized path),
`--version` to `set_version`, and the four string flags to `set_string`
with keys `CompanyName`, `FileDescription`, `ProductName` and
`LegalCopyright` — while omitted or empty-valued flags produce no call, and
exactly one commit (apply) follows the edits. -/
theorem c3_amended_cli (fs : FS) (cwd : String) (id : Nat) (args : CliArgs)
    (bs : List Nat) (hbs : fs (absolutize cwd args.exe_path) = some bs)
    (hval : validPE bs = true) :
    ((cliMain fs cwd id args).2).map (fun e => e.editor.calls) =
      Except.ok
        (flagCalls args.icon (fun s => ECall.setIcon (absolutize cwd s)) ++
         (flagCalls args.version ECall.setVersion ++
          (flagCalls args.company (ECall.setString "CompanyName") ++
           (flagCalls args.description (ECall.setString "FileDescription") ++
            (flagCalls args.product (ECall.setString "ProductName") ++
             (flagCalls args.copyright (ECall.setString "LegalCopyright") ++
              [ECall.applyCall])))))) := by
  unfold cliMain
  rw [if_neg (by simp [hbs])]
  dsimp only
  rw [construct_ok fs cwd id args.exe_path bs hbs hval, exbind_ok]
  rw [flagStepIcon cwd _ args.icon rfl, exbind_ok]
  rw [flagStepVersion _ args.version rfl, exbind_ok]
  rw [flagStepString _ args.company "CompanyName" rfl, exbind_ok]
  rw [flagStepString _ args.description "FileDescription" rfl, exbind_ok]
  rw [flagStepString _ args.product "ProductName" rfl, exbind_ok]
  rw [flagStepString _ args.copyright "LegalCopyright" rfl, exbind_ok]
  rw [applyEditor_ok _ rfl]
  simp [Except.map, List.append_assoc]

/-- Witness for C3 (amended): a CLI run mixing truthy, empty and omitted
flags on an existing target. -/
theorem c3_witness :
    fsEx (absolutize "/d" "app.exe") = some [77, 90] ∧ validPE [77, 90] = true ∧
    ((cliMain fsEx "/d" 0 argsW).2).map (fun e => e.editor.calls) =
      Except.ok
        (flagCalls argsW.icon (fun s => ECall.setIcon (absolutize "/d" s)) ++
         (flagCalls argsW.version ECall.setVersion ++
          (flagCalls argsW.company (ECall.setString "CompanyName") ++
           (flagCalls argsW.description (ECall.setString "FileDescription") ++
            (flagCalls argsW.product (ECall.setString "ProductName") ++
             (flagCalls argsW.copyright (ECall.setString "LegalCopyright") ++
              [ECall.applyCall])))))) := by
  refine ⟨by rfl, rfl, ?_⟩
  exact c3_amended_cli fsEx "/d" 0 argsW [77, 90] (by rfl) rfl

/-- Counterexample to C5 as stated: on an image whose certificate entry is
already zero-length but has a nonzero address, `strip` succeeds as a no-op
and the entry does not end as (0,0). -/
theorem c5_counterexample :
    strip imgZeroLen = Except.ok imgZeroLen ∧
    imgZeroLen.certSize = 0 ∧ imgZeroLen.certAddr = 5 :=
  ⟨rfl, rfl, rfl⟩

/-- C5 (amended): `strip` is a no-op when the certificate-table entry is
already zero-length; on a nonempty entry whose data occupies the tail of
the file it zeroes both fields and truncates the buffer to the entry's
start offset (new length = original length minus the blob length); on a
nonempty entry not at the file's end it fails with `InvariantViolation`;
in every successful case the entry ends with zero size, and ends as (0,0)
whenever it was nonempty. -/
theorem c5_strip_amended (img : PEImage) :
    (img.certSize = 0 → strip img = Except.ok img) ∧
    (img.certSize ≠ 0 → img.certAddr + img.certSize = img.fileData.length →
        strip img = Except.ok ⟨img.fileData.take img.certAddr, 0, 0⟩ ∧
        (img.fileData.take img.certAddr).length =
          img.fileData.length - img.certSize) ∧
    (img.certSize ≠ 0 → img.certAddr + img.certSize ≠ img.fileData.length →
        strip img = Except.error Err.invariantViolation) ∧
    (∀ img', strip img = Except.ok img' →
        img'.certSize = 0 ∧ (img.certSize ≠ 0 → img'.certAddr = 0 ∧ img'.certSize = 0)) := by
  refine ⟨?_, ?_, ?_, ?_⟩
  · intro h
    simp [strip, h]
  · intro h ht
    constructor
    · simp [strip, h, ht]
    · simp [List.length_take]
      omega
  · intro h ht
    simp [strip, h, ht]
  · intro img' h
    unfold strip at h
    by_cases h0 : img.certSize = 0
    · rw [if_pos h0] at h
      cases h
      exact ⟨h0, fun hc => absurd h0 hc⟩
    · rw [if_neg h0] at h
      by_cases ht : img.certAddr + img.certSize = img.fileData.length
      · rw [if_pos ht] at h
        cases h
        exact ⟨rfl, fun _ => ⟨rfl, rfl⟩⟩
      · rw [if_neg ht] at h
        cases h

/-- Witness for C5 (amended): a concrete image whose 3-byte certificate
blob sits at the tail of an 8-byte file. -/
theorem c5_witness :
    imgTail.certSize ≠ 0 ∧
    imgTail.certAddr + imgTail.certSize = imgTail.fileData.length ∧
    strip imgTail = Except.ok ⟨imgTail.fileData.take imgTail.certAddr, 0, 0⟩ ∧
    (imgTail.fileData.take imgTail.certAddr).length =
      imgTail.fileData.length - imgTail.certSize := by
  obtain ⟨_, h2, _, _⟩ := c5_strip_amended imgTail
  have h := h2 (by decide) (by decide)
  exact ⟨by decide, by decide, h.1, h.2⟩

/-- C7. On a source image of at least 256-by-256 pixels with RGB or RGBA
channels, `from_image` succeeds and yields an IconSet whose images have
exactly the sizes 256, 128, 64, 48, 32, 16 (descending), each obtained by
downscaling the source, with the 256-pixel image compressed and every
smaller size an uncompressed 32-bit bitmap. -/
theorem c7_from_image (img : SrcImage) (hw : 256 ≤ img.width) (hh : 256 ≤ img.height)
    (hc : img.channels = 3 ∨ img.channels = 4) :
    (from_image img).map (fun iset => iset.images.map IconImage.size) =
      Except.ok [256, 128, 64, 48, 32, 16] ∧
    ∀ iset, from_image img = Except.ok iset →
      ∀ im ∈ iset.images,
        (im.compressed = true ↔ im.size = 256) ∧
        im.payload = resizeTo img im.size ∧ im.bpp = 32 := by
  have hnz : ¬(img.width = 0 ∨ img.height = 0) := by omega
  constructor
  · unfold from_image
    rw [if_neg hnz, if_pos hc]
    simp [Except.map, iconSizes]
  · intro iset h
    unfold from_image at h
    rw [if_neg hnz, if_pos hc] at h
    cases h
    intro im him
    simp only [iconSizes, List.map_cons, List.map_nil, List.mem_cons,
      List.not_mem_nil, or_false] at him
    rcases him with h | h | h | h | h | h <;> subst h <;> simp

/-- Witness for C7: a concrete 256-by-256 RGBA source. -/
theorem c7_witness :
    (from_image imgSrcEx).map (fun iset => iset.images.map IconImage.size) =
      Except.ok [256, 128, 64, 48, 32, 16] ∧
    ∀ iset, from_image imgSrcEx = Except.ok iset →
      ∀ im ∈ iset.images,
        (im.compressed = true ↔ im.size = 256) ∧
        im.payload = resizeTo imgSrcEx im.size ∧ im.bpp = 32 :=
  c7_from_image imgSrcEx (by decide) (by decide) (Or.inr rfl)

/-- C8. The resource pipeline for a string or version edit is
deterministic: two separate runs of `runEdit` on the same edit and the
same input bytes produce identical output — the pipeline is a pure
function of the edit and the input. -/
theorem c8_edit_deterministic (e : REdit) (ws out1 out2 : List Nat)
    (h1 : some out1 = runEdit e ws) (h2 : some out2 = runEdit e ws) :
    out1 = out2 := by
  rw [← h2] at h1
  cases h1
  rfl

/-- Witness for C8: two runs of the same string edit on concretely encoded
bytes, both evaluating to the explicitly mutated re-encoding. -/
theorem c8_witness :
    (some (encode (applyREdit (REdit.setStringEdit [67, 111] [88]) recEx)) =
      runEdit (REdit.setStringEdit [67, 111] [88]) (encode recEx)) ∧
    encode (applyREdit (REdit.setStringEdit [67, 111] [88]) recEx) =
      encode (applyREdit (REdit.setStringEdit [67, 111] [88]) recEx) :=
  ⟨rfl,
   c8_edit_deterministic (REdit.setStringEdit [67, 111] [88]) (encode recEx) _ _ rfl rfl⟩

/-- A printable string contains no null terminator. -/
theorem printable_ne_zero {s : List Nat} (h : PrintableStr s) : ∀ u ∈ s, u ≠ 0 := by
  intro u hu
  have := h u hu
  unfold PrintableUnit at this
  omega

/-- Parsing up to the terminator inverts null-termination of a
zero-free string. -/
theorem takeUntil0_append (s r : List Nat) (h : ∀ u ∈ s, u ≠ 0) :
    takeUntil0 (s ++ 0 :: r) = some (s, r) := by
  induction s with
  | nil => simp [takeUntil0]
  | cons u us ih =>
      have hu : u ≠ 0 := h u (by simp)
      have hs : ∀ x ∈ us, x ≠ 0 := fun x hx => h x (by simp [hx])
      simp [takeUntil0, hu, ih hs]

/-- Padded blocks have even word length. -/
theorem padTo2_length (l : List Nat) : (padTo2 l).length % 2 = 0 := by
  unfold padTo2
  by_cases h : l.length % 2 = 0
  · rw [if_pos h]; exact h
  · rw [if_neg h]; simp; omega

/-- The shape of an encoded padded string: the raw units, the terminator,
and the parity-determined pad. -/
theorem encStrPadded_eq (s : List Nat) :
    encStrPadded s = s ++ 0 :: (if (s.length + 1) % 2 = 1 then [0] else []) := by
  unfold encStrPadded padTo2
  by_cases h : (s ++ [0]).length % 2 = 0
  · rw [if_pos h]
    simp only [List.length_append, List.length_cons, List.length_nil] at h
    rw [if_neg (by omega)]
  · rw [if_neg h]
    simp only [List.length_append, List.length_cons, List.length_nil] at h
    rw [if_pos (by omega)]
    simp

/-- Decoding a padded string inverts its encoding, leaving the rest of the
stream untouched. -/
theorem decStrPadded_enc (s rest : List Nat) (h : ∀ u ∈ s, u ≠ 0) :
    decStrPadded (encStrPadded s ++ rest) = some (s, rest) := by
  rw [encStrPadded_eq]
  by_cases hp : (s.length + 1) % 2 = 1
  · rw [if_pos hp]
    have hsh : (s ++ 0 :: [0]) ++ rest = s ++ 0 :: (0 :: rest) := by simp
    rw [hsh]
    unfold decStrPadded
    rw [takeUntil0_append s (0 :: rest) h]
    simp [skipPad, hp]
  · rw [if_neg hp]
    have hp0 : (s.length + 1) % 2 = 0 := by omega
    have hsh : (s ++ 0 :: []) ++ rest = s ++ 0 :: rest := by simp
    rw [hsh]
    unfold decStrPadded
    rw [takeUntil0_append s rest h]
    simp [skipPad, hp0]

/-- Decoding one entry inverts its encoding. -/
theorem decEntry_enc (k v rest : List Nat)
    (hk : ∀ u ∈ k, u ≠ 0) (hv : ∀ u ∈ v, u ≠ 0) :
    decEntry (encEntry (k, v) ++ rest) = some ((k, v), rest) := by
  have hkl := padTo2_length (k ++ [0])
  have hvl := padTo2_length (v ++ [0])
  unfold encEntry
  dsimp only
  have hsh : (([(encStrPadded k ++ encStrPadded v).length] ++
        (encStrPadded k ++ encStrPadded v) ++ [0]) ++ rest) =
      (encStrPadded k ++ encStrPadded v).length ::
        (encStrPadded k ++ (encStrPadded v ++ 0 :: rest)) := by
    simp
  rw [hsh]
  have hlen : (encStrPadded k ++ encStrPadded v).length ≤
      (encStrPadded k ++ (encStrPadded v ++ 0 :: rest)).length := by
    simp
  have hpar : ((encStrPadded k).length + (encStrPadded v).length + 1) % 2 = 1 := by
    have e1 : (encStrPadded k).length % 2 = 0 := hkl
    have e2 : (encStrPadded v).length % 2 = 0 := hvl
    omega
  simp only [decEntry]
  rw [if_pos hlen]
  rw [decStrPadded_enc k (encStrPadded v ++ 0 :: rest) hk]
  dsimp only
  rw [decStrPadded_enc v (0 :: rest) hv]
  dsimp only
  simp [skipPad, hpar]

/-- Decoding a counted entry sequence inverts encoding of the entries. -/
theorem decEntries_enc (es : List (List Nat × List Nat)) (rest : List Nat)
    (h : ∀ e ∈ es, (∀ u ∈ e.1, u ≠ 0) ∧ (∀ u ∈ e.2, u ≠ 0)) :
    decEntries es.length ((es.map encEntry).flatten ++ rest) = some (es, rest) := by
  induction es with
  | nil => simp [decEntries]
  | cons e es ih =>
      obtain ⟨k, v⟩ := e
      have h1 := h (k, v) (by simp)
      have h2 : ∀ x ∈ es, (∀ u ∈ x.1, u ≠ 0) ∧ (∀ u ∈ x.2, u ≠ 0) :=
        fun x hx => h x (by simp [hx])
      simp only [List.map_cons, List.flatten_cons, List.length_cons, List.append_assoc]
      simp only [decEntries]
      rw [decEntry_enc k v _ h1.1 h1.2]
      dsimp only
      rw [ih h2]

/-- Decoding one string table inverts its encoding. -/
theorem decTable_enc (t : StrTable) (rest : List Nat)
    (h : ∀ e ∈ t.2, (∀ u ∈ e.1, u ≠ 0) ∧ (∀ u ∈ e.2, u ≠ 0)) :
    decTable (encTable t ++ rest) = some (t, rest) := by
  obtain ⟨⟨lang, cp⟩, es⟩ := t
  simp only [encTable]
  have hsh : (([lang, cp, es.length] ++ (es.map encEntry).flatten) ++ rest) =
      lang :: cp :: es.length :: ((es.map encEntry).flatten ++ rest) := by
    simp
  rw [hsh]
  simp only [decTable]
  rw [decEntries_enc es rest h]

/-- Decoding a counted table sequence inverts encoding of the tables. -/
theorem decTables_enc (ts : List StrTable) (rest : List Nat)
    (h : ∀ t ∈ ts, ∀ e ∈ t.2, (∀ u ∈ e.1, u ≠ 0) ∧ (∀ u ∈ e.2, u ≠ 0)) :
    decTables ts.length ((ts.map encTable).flatten ++ rest) = some (ts, rest) := by
  induction ts with
  | nil => simp [decTables]
  | cons t ts ih =>
      have h1 := h t (by simp)
      have h2 : ∀ x ∈ ts, ∀ e ∈ x.2, (∀ u ∈ e.1, u ≠ 0) ∧ (∀ u ∈ e.2, u ≠ 0) :=
        fun x hx => h x (by simp [hx])
      simp only [List.map_cons, List.flatten_cons, List.length_cons, List.append_assoc]
      simp only [decTables]
      rw [decTable_enc t _ h1]
      dsimp only
      rw [ih h2]

/-- C4. For every version-info record with at least one
(language, code page) entry and printable string values, decoding the bytes
produced by encoding the record yields the identical record:
`decode (encode r) = some r`. -/
theorem c4_roundtrip (r : VersionInfoRecord) (h1 : 1 ≤ r.tables.length)
    (hp : PrintableRecord r) : decode (encode r) = some r := by
  obtain ⟨⟨f1, f2, f3, f4⟩, ⟨p1, p2, p3, p4⟩, ts⟩ := r
  have hz : ∀ t ∈ ts, ∀ e ∈ t.2, (∀ u ∈ e.1, u ≠ 0) ∧ (∀ u ∈ e.2, u ≠ 0) := by
    intro t ht e he
    have := hp t ht e he
    exact ⟨printable_ne_zero this.1, printable_ne_zero this.2⟩
  simp only [encode, decode]
  rw [decTables_enc ts (encTrans ts) hz]
  simp

/-- Witness for C4: a concrete one-table record with printable strings
round-trips through the codec. -/
theorem c4_witness :
    1 ≤ recEx.tables.length ∧ PrintableRecord recEx ∧
    decode (encode recEx) = some recEx :=
  ⟨by decide, by decide, c4_roundtrip recEx (by decide) (by decide)⟩

end Metaedit
